import Mathlib

/-!
Verification of the voice-to-CRM extraction pipeline (`src/voice/voice-to-crm.py`).

The Python program is shallowly embedded: strings are `String` (viewed through
their `List Char` data), Python regular expressions are interpreted by a small
backtracking matcher (`runRx`) that returns candidate matches in the same
priority order CPython's `re` engine explores them (alternation left first,
greedy repetition longest first, lazy repetition shortest first), and Python
dicts are association lists whose insertion preserves key order and overwrites
in place, mirroring CPython dict semantics.

Network effects are made explicit: the pipeline and backup payloads fetched
from the CRM proxy become list parameters, and the `/notes` post becomes a
boolean oracle for "the call reported success" plus a boolean result recording
whether a post was attempted at all.

ASCII caveat: `str.lower`, `str.upper`, `str.isupper` and the `re` character
classes are modelled on their ASCII behaviour, which coincides with Python on
every string occurring in the program and in the concrete inputs used below.
-/

/-- ASCII lower-casing of one character, as `str.lower` acts on ASCII text. -/
def lowerChar (c : Char) : Char :=
  if 65 ≤ c.toNat ∧ c.toNat ≤ 90 then Char.ofNat (c.toNat + 32) else c

/-- ASCII upper-casing of one character, as `str.upper` acts on ASCII text. -/
def upperChar (c : Char) : Char :=
  if 97 ≤ c.toNat ∧ c.toNat ≤ 122 then Char.ofNat (c.toNat - 32) else c

/-- Python `str.isupper` for a single ASCII character (used for acronyms). -/
def isUpperChar (c : Char) : Bool :=
  65 ≤ c.toNat && c.toNat ≤ 90

/-- Python's `\s` class / `str.strip` whitespace: space, tab, LF, CR, FF, VT. -/
def pyIsSpace (c : Char) : Bool :=
  c.toNat = 32 || c.toNat = 9 || c.toNat = 10 || c.toNat = 13 || c.toNat = 12 || c.toNat = 11

/-- Python's `\w` class restricted to ASCII: letters, digits, underscore. -/
def isWordChar (c : Char) : Bool :=
  (97 ≤ c.toNat && c.toNat ≤ 122) || (65 ≤ c.toNat && c.toNat ≤ 90) ||
    (48 ≤ c.toNat && c.toNat ≤ 57) || c.toNat = 95

/-- `str.lower` on raw character data. -/
def pyLower (s : List Char) : List Char := s.map lowerChar

/-- `str.lower` at the `String` level. -/
def pyLowerS (s : String) : String := ⟨pyLower s.data⟩

/-- `str.strip()` on raw character data (strip whitespace from both ends). -/
def pyStrip (s : List Char) : List Char :=
  ((s.dropWhile pyIsSpace).reverse.dropWhile pyIsSpace).reverse

/-- `str.strip()` at the `String` level. -/
def pyStripS (s : String) : String := ⟨pyStrip s.data⟩

/-- Python `str.split()` with no separator (fuelled so the kernel can
evaluate it; every step consumes at least one character, so `length + 1`
fuel is exact). -/
def pySplitF : Nat → List Char → List (List Char)
  | 0, _ => []
  | _ + 1, [] => []
  | fuel + 1, c :: cs =>
    if pyIsSpace c then pySplitF fuel cs
    else ((c :: cs).takeWhile (fun x => !pyIsSpace x)) ::
      pySplitF fuel (cs.dropWhile (fun x => !pyIsSpace x))

/-- Python `str.split()` with no separator: split on whitespace runs, no empties. -/
def pySplit (s : List Char) : List (List Char) := pySplitF (s.length + 1) s

/-- Substring test: Python's `needle in hay` for nonoverlapping scan. -/
def strContains (needle : List Char) : List Char → Bool
  | [] => needle.isPrefixOf ([] : List Char)
  | c :: cs => needle.isPrefixOf (c :: cs) || strContains needle cs

/-- Python `str.replace(old, new)` for nonempty `old` (fuelled so the kernel
can evaluate it; every step consumes at least one character). -/
def pyReplaceF (old repl : List Char) : Nat → List Char → List Char
  | 0, s => s
  | _ + 1, [] => []
  | fuel + 1, c :: cs =>
    if old ≠ [] ∧ old.isPrefixOf (c :: cs) then
      repl ++ pyReplaceF old repl fuel ((c :: cs).drop old.length)
    else
      c :: pyReplaceF old repl fuel cs

/-- Python `str.replace(old, new)` for nonempty `old`: replace every
non-overlapping occurrence, scanning left to right. -/
def pyReplaceL (old repl s : List Char) : List Char :=
  pyReplaceF old repl (s.length + 1) s

/-- Python `str.startswith`. -/
def pyStartsWith (pre s : List Char) : Bool := pre.isPrefixOf s

/-- One candidate match of a pattern at a fixed position: the consumed
characters, the text captured by the (single) group, and the remaining text. -/
structure MRes where
  consumed : List Char
  cap : Option (List Char)
  rest : List Char
deriving DecidableEq

/-- The regular-expression fragment language used by `voice-to-crm.py`.
Repetition only ever applies to single-character classes in the source's
patterns, so Kleene repetition is `starCls` over a class and needs no fuel. -/
inductive Rx where
  | eps : Rx
  | cls (p : Char → Bool) : Rx
  | seq (a b : Rx) : Rx
  | alt (a b : Rx) : Rx
  | starCls (p : Char → Bool) (greedy : Bool) : Rx
  | grp (r : Rx) : Rx
  | wb : Rx
  | bos : Rx
  | eos : Rx

/-- The character standing immediately before the rest of the text after
consuming `consumed`, given the character `prev` before the match started. -/
def nextPrev (prev : Option Char) (consumed : List Char) : Option Char :=
  match consumed.getLast? with
  | some c => some c
  | none => prev

/-- All ways a pattern can match a prefix of `s` (`prev` is the character
just before `s`, for word boundaries), in exactly the priority order CPython's
backtracking `re` engine explores them: alternation tries the left branch
first, greedy repetition longer first, lazy repetition shorter first, and
sequence priorities nest lexicographically.  The chosen match of the Python
engine is the head of this list. -/
def runRx : Rx → Option Char → List Char → List MRes
  | .eps, _, s => [⟨[], none, s⟩]
  | .cls p, _, s =>
    match s with
    | [] => []
    | c :: cs => if p c then [⟨[c], none, cs⟩] else []
  | .seq a b, prev, s =>
    (runRx a prev s).flatMap fun m =>
      (runRx b (nextPrev prev m.consumed) m.rest).map fun m2 =>
        ⟨m.consumed ++ m2.consumed, m.cap.orElse (fun _ => m2.cap), m2.rest⟩
  | .alt a b, prev, s => runRx a prev s ++ runRx b prev s
  | .starCls p greedy, _, s =>
    let ixs := List.range ((s.takeWhile p).length + 1)
    (if greedy then ixs.reverse else ixs).map fun i => ⟨s.take i, none, s.drop i⟩
  | .grp r, prev, s => (runRx r prev s).map fun m => ⟨m.consumed, some m.consumed, m.rest⟩
  | .wb, prev, s =>
    let before := match prev with | some c => isWordChar c | none => false
    let after := match s with | c :: _ => isWordChar c | [] => false
    if before != after then [⟨[], none, s⟩] else []
  | .bos, prev, s => if prev.isNone then [⟨[], none, s⟩] else []
  | .eos, _, s => if s.isEmpty then [⟨[], none, s⟩] else []

/-- `re.search` semantics: scan start positions left to right; at the first
position where the pattern matches, return the text before the match and the
engine's chosen (highest-priority) match. -/
def searchFrom (r : Rx) (prev : Option Char) : List Char → Option (List Char × MRes)
  | [] =>
    match runRx r prev [] with
    | m :: _ => some ([], m)
    | [] => none
  | c :: cs =>
    match runRx r prev (c :: cs) with
    | m :: _ => some ([], m)
    | [] => (searchFrom r (some c) cs).map fun pm => (c :: pm.1, pm.2)

/-- `re.search(pattern, s)` from the start of a string. -/
def reSearch (r : Rx) (s : List Char) : Option MRes :=
  (searchFrom r none s).map (·.2)

/-- `re.sub(pattern, repl, s)`: replace every non-overlapping match, scanning
left to right.  The fuel bounds the number of replacements; every pattern the
program substitutes consumes at least one character per match, so
`s.length + 1` fuel is exact (the empty-match guard is unreachable for them). -/
def reSubFuel (r : Rx) (repl : List Char) : Nat → Option Char → List Char → List Char
  | 0, _, s => s
  | fuel + 1, prev, s =>
    match searchFrom r prev s with
    | none => s
    | some (pre, m) =>
      if m.consumed.isEmpty then s
      else pre ++ repl ++ reSubFuel r repl fuel (nextPrev prev (pre ++ m.consumed)) m.rest

/-- `re.sub` at the `String` level. -/
def pyReSub (r : Rx) (repl : String) (s : String) : String :=
  ⟨reSubFuel r repl.data (s.data.length + 1) none s.data⟩

/-- A case-sensitive literal pattern. -/
def lit (s : String) : Rx :=
  s.data.foldr (fun c r => Rx.seq (Rx.cls (fun x => x == c)) r) Rx.eps

/-- A literal pattern under `re.IGNORECASE`: each character matches up to
ASCII case folding. -/
def litCI (s : String) : Rx :=
  s.data.foldr (fun c r => Rx.seq (Rx.cls (fun x => lowerChar x == lowerChar c)) r) Rx.eps

/-- Ordered alternation of a list of branches (leftmost first). -/
def altList : List Rx → Rx
  | [] => Rx.cls (fun _ => false)
  | [r] => r
  | r :: rs => Rx.alt r (altList rs)

/-- Sequencing of a list of fragments. -/
def seqList : List Rx → Rx
  | [] => Rx.eps
  | [r] => r
  | r :: rs => Rx.seq r (seqList rs)

/-- Greedy `X?`. -/
def optRx (r : Rx) : Rx := Rx.alt r Rx.eps

/-- `\s+` (greedy). -/
def wsPlus : Rx := Rx.seq (Rx.cls pyIsSpace) (Rx.starCls pyIsSpace true)

/-- `\s*` (greedy). -/
def wsStar : Rx := Rx.starCls pyIsSpace true

/-- `\w+` (greedy). -/
def wordPlus : Rx := Rx.seq (Rx.cls isWordChar) (Rx.starCls isWordChar true)

/-- The `call` patterns of `ACTIVITY_PATTERNS`, transcribed regex by regex. -/
def callPatterns : List Rx :=
  [seqList [Rx.wb, lit "call", optRx (altList [lit "ed", lit "ing"]), Rx.wb],
     seqList [Rx.wb, lit "phon", altList [lit "e", lit "ed", lit "ing"], Rx.wb],
     seqList [Rx.wb, lit "rang", Rx.wb],
     seqList [Rx.wb, lit "spoke ", altList [lit "to", lit "with"], Rx.wb],
     seqList [Rx.wb, lit "talked ", altList [lit "to", lit "with"], Rx.wb],
     seqList [Rx.wb, lit "dialed", Rx.wb],
     seqList [Rx.wb, lit "log a call", Rx.wb],
     seqList [Rx.wb, lit "cold call", Rx.wb],
     seqList [Rx.wb, lit "phone call", Rx.wb]]

/-- The `email` patterns of `ACTIVITY_PATTERNS`. -/
def emailPatterns : List Rx :=
  [seqList [Rx.wb, lit "email", optRx (altList [lit "ed", lit "ing"]), Rx.wb],
     seqList [Rx.wb, lit "e", optRx (lit "-"), lit "mail", Rx.wb],
     seqList [Rx.wb, lit "sent ", optRx (altList [lit "a ", lit "an "]),
              altList [lit "email", lit "message", lit "note"], Rx.wb],
     seqList [Rx.wb, lit "inbox", Rx.wb],
     seqList [Rx.wb, lit "wrote to", Rx.wb],
     seqList [Rx.wb, lit "followed up via email", Rx.wb]]

/-- The `meeting` patterns of `ACTIVITY_PATTERNS`. -/
def meetingPatterns : List Rx :=
  [seqList [Rx.wb, lit "m", altList [lit "et", lit "eeting"], Rx.wb],
     seqList [Rx.wb, lit "sat down with", Rx.wb],
     seqList [Rx.wb, lit "visit", optRx (altList [lit "ed", lit "ing"]), Rx.wb],
     seqList [Rx.wb, lit "site visit", Rx.wb],
     seqList [Rx.wb, lit "demo", optRx (seqList [lit "nstrat", altList [lit "ed", lit "ion"]]), Rx.wb],
     seqList [Rx.wb, lit "present", altList [lit "ed", lit "ation"], Rx.wb],
     seqList [Rx.wb, lit "lunch", optRx (lit "ed"), Rx.wb],
     seqList [Rx.wb, lit "coffee with", Rx.wb],
     seqList [Rx.wb, lit "teams call", Rx.wb],
     seqList [Rx.wb, lit "zoom", Rx.wb],
     seqList [Rx.wb, lit "webex", Rx.wb],
     seqList [Rx.wb, lit "in-person", Rx.wb],
     seqList [Rx.wb, lit "face to face", Rx.wb]]

/-- The `note` patterns of `ACTIVITY_PATTERNS`. -/
def notePatterns : List Rx :=
  [seqList [Rx.wb, lit "note", Rx.wb],
     seqList [Rx.wb, lit "update", Rx.wb],
     seqList [Rx.wb, lit "fyi", Rx.wb],
     seqList [Rx.wb, lit "heads up", Rx.wb],
     seqList [Rx.wb, lit "just ", optRx (lit "a "), optRx (lit "quick "), lit "note", Rx.wb],
     seqList [Rx.wb, lit "reminder", Rx.wb]]

/-- `ACTIVITY_PATTERNS` from `voice-to-crm.py`, in declaration order
(call, email, meeting, note); matched against lowercased text. -/
def ACTIVITY_PATTERNS : List (String × List Rx) :=
  [("call", callPatterns), ("email", emailPatterns),
   ("meeting", meetingPatterns), ("note", notePatterns)]

/-- Number of patterns of one category that match somewhere in the text. -/
def patScore (textLower : List Char) (pats : List Rx) : Nat :=
  pats.countP fun r => (reSearch r textLower).isSome

/-- `detect_activity_type` from `voice-to-crm.py`: score every category
against the lowercased text, take `max(scores, key=scores.get)` (Python `max`
keeps the earliest key on ties), and fall back to `"note"` when the best
score is zero. -/
def detect_activity_type (text : String) : String :=
  let tl := pyLower text.data
  match ACTIVITY_PATTERNS with
  | [] => "note"
  | tp0 :: rest =>
    let best := rest.foldl
      (fun (b : String × Nat) tp =>
        if patScore tl tp.2 > b.2 then (tp.1, patScore tl tp.2) else b)
      (tp0.1, patScore tl tp0.2)
    if best.2 > 0 then best.1 else "note"

/-- `CONTACT_PREFIXES` from `voice-to-crm.py` (a single alternation followed
by `\s+`), case-sensitive. -/
def CONTACT_PREFIXES : List Rx :=
  [seqList
    [altList [lit "with", lit "to", lit "from", lit "and", lit "met", lit "called",
              lit "emailed", lit "spoke to", lit "talked to", lit "talked with",
              lit "spoke with"],
     wsPlus]]

/-- `NAME_PATTERN` from `voice-to-crm.py`:
`([A-Z][a-z]+(?:\s+[A-Z][a-z]+){0,2})`. -/
def NAME_PATTERN : Rx :=
  Rx.grp (seqList
    [Rx.cls isUpperChar,
     Rx.seq (Rx.cls (fun c => 97 ≤ c.toNat && c.toNat ≤ 122))
            (Rx.starCls (fun c => 97 ≤ c.toNat && c.toNat ≤ 122) true),
     optRx (Rx.seq
       (seqList [wsPlus, Rx.cls isUpperChar,
                 Rx.seq (Rx.cls (fun c => 97 ≤ c.toNat && c.toNat ≤ 122))
                        (Rx.starCls (fun c => 97 ≤ c.toNat && c.toNat ≤ 122) true)])
       (optRx (seqList [wsPlus, Rx.cls isUpperChar,
                 Rx.seq (Rx.cls (fun c => 97 ≤ c.toNat && c.toNat ≤ 122))
                        (Rx.starCls (fun c => 97 ≤ c.toNat && c.toNat ≤ 122) true)])))])

/-- The fixed stop list of `extract_contact_name` (words whose presence as
first word disqualifies a candidate name). -/
def skip_words : List String :=
  ["Monday", "Tuesday", "Wednesday", "Thursday", "Friday",
   "Saturday", "Sunday", "January", "February", "March",
   "April", "May", "June", "July", "August", "September",
   "October", "November", "December", "Today", "Tomorrow",
   "The", "This", "That", "They", "Their", "About",
   "Called", "Emailed", "Meeting", "Note", "Update"]

/-- The prefix-pattern loop of `extract_contact_name`: scan the patterns in
order; on the first regex match take group 1, return it only when its first
word is not a stop word and it has at least two words; otherwise keep
scanning (and ultimately return the empty string). -/
def contactScan (cleaned : List Char) : List Rx → String
  | [] => ""
  | p :: rest =>
    match reSearch (Rx.seq p NAME_PATTERN) cleaned with
    | some m =>
      let name := pyStrip (m.cap.getD [])
      let ws := pySplit name
      if (⟨ws.headD []⟩ : String) ∉ skip_words ∧ 2 ≤ ws.length then ⟨name⟩
      else contactScan cleaned rest
    | none => contactScan cleaned rest

/-- `extract_contact_name` from `voice-to-crm.py`: remove every literal
occurrence of the account name, then run the prefix-pattern scan. -/
def extract_contact_name (text : String) (account_name : String) : String :=
  let cleaned := if account_name ≠ "" then pyReplaceL account_name.data [] text.data
                 else text.data
  contactScan cleaned CONTACT_PREFIXES

/-- A Python dict as an association list: key insertion order is preserved
and assigning to an existing key overwrites its value in place. -/
def dinsert : List (String × String) → String → String → List (String × String)
  | [], k, v => [(k, v)]
  | (k0, v0) :: t, k, v =>
    if k0 = k then (k0, v) :: t else (k0, v0) :: dinsert t k v

/-- Dict lookup (first binding of the key). -/
def dlookup : List (String × String) → String → Option String
  | [], _ => none
  | (k0, v0) :: t, k => if k0 = k then some v0 else dlookup t k

/-- Dict key list, in insertion order. -/
def dkeys (m : List (String × String)) : List String := m.map Prod.fst

/-- Dict value list, in key insertion order. -/
def dvalues (m : List (String × String)) : List String := m.map Prod.snd

/-- The hardcoded fallback account list of `fetch_known_accounts`, verbatim. -/
def fallbackAccounts : List String :=
  ["Government of Saskatchewan", "Nutrien Ltd", "SaskTel",
   "Federated Co-operatives", "SGI Canada", "The Mosaic Company",
   "SIGA", "Brandt Group", "SaskEnergy", "Cameco Corporation",
   "Conexus Credit Union", "Affinity Credit Union", "Viterra",
   "Saskatchewan WCB", "City of Saskatoon", "City of Regina",
   "Saskatchewan Health Authority", "eHealth Saskatchewan",
   "SaskPower", "Bunge Canada", "K+S Potash Canada",
   "Regina General Hospital", "St Paul\x27s Hospital",
   "Saskatchewan Gaming Corporation", "Farm Credit Canada",
   "Vecima Networks", "Bourgault Industries", "CGI",
   "Prince Albert Grand Council", "Potash Corp of SK",
   "GSCS", "SLGA", "Pharma Choice Canada",
   "Maple Leaf Consumer Foods", "Trans Gas Ltd",
   "Sun Country Regional Health", "Five Hills Health Region",
   "Kelsey Trail Health Region", "Ranch Ehrlo Society",
   "Northern Lights Casino", "Gold Eagle Casino",
   "Painted Hand Casino", "Canadian Pacific Railway"]

/-- Phase 1 of `fetch_known_accounts`: pipeline deal account names
(`accounts[name.lower()] = name`, skipping falsy i.e. empty values). -/
def pipelineFold (m : List (String × String)) (pipeline : List String) : List (String × String) :=
  pipeline.foldl (fun m a => if a ≠ "" then dinsert m (pyLowerS a) a else m) m

/-- Phase 2 of `fetch_known_accounts`: backup keys with the `xits_acct_`
prefix become names (`replace` the prefix and underscores, `strip`), inserted
only when the case-insensitive key is not already present. -/
def backupFold (m : List (String × String)) (backup : List String) : List (String × String) :=
  backup.foldl
    (fun m key =>
      if pyStartsWith "xits_acct_".data key.data then
        let name : String :=
          ⟨pyStrip (pyReplaceL "_".data " ".data (pyReplaceL "xits_acct_".data [] key.data))⟩
        if dlookup m (pyLowerS name) = none then dinsert m (pyLowerS name) name else m
      else m)
    m

/-- Phase 3 of `fetch_known_accounts`: the hardcoded list always overwrites. -/
def fallbackFold (m : List (String × String)) : List (String × String) :=
  fallbackAccounts.foldl (fun m n => dinsert m (pyLowerS n) n) m

/-- The `accounts` dict of `fetch_known_accounts` after all three phases. -/
def accountsMap (pipeline backup : List String) : List (String × String) :=
  fallbackFold (backupFold (pipelineFold [] pipeline) backup)

/-- `fetch_known_accounts` from `voice-to-crm.py`, with the two network
payloads (pipeline deal account names and backup key names) supplied as
parameters; a failed fetch is the empty list.  Returns `list(accounts.values())`. -/
def fetch_known_accounts (pipeline backup : List String) : List String :=
  dvalues (accountsMap pipeline backup)

/-- The parenthetical pattern `\s*\([^)]*\)\s*` of `build_match_candidates`. -/
def parenRx : Rx :=
  seqList [wsStar, lit "(", Rx.starCls (fun c => !(c == ')')) true, lit ")", wsStar]

/-- One iteration of the `build_match_candidates` loop: insert the lowercase
full name, the parenthetical-stripped form (if different), the uppercase
acronym (if at least two letters), and the first word (if longer than three
characters). -/
def addCandidates (m : List (String × String)) (name : String) : List (String × String) :=
  let m := dinsert m (pyLowerS name) name
  let base : String := ⟨pyStrip (pyReSub parenRx " " name).data⟩
  let m := if pyLowerS base ≠ pyLowerS name then dinsert m (pyLowerS base) name else m
  let abbr : List Char := name.data.filter isUpperChar
  let m := if 2 ≤ abbr.length then dinsert m (⟨pyLower abbr⟩ : String) name else m
  let first : List Char := (pySplit name.data).headD []
  if 3 < first.length then dinsert m (⟨pyLower first⟩ : String) name else m

/-- `build_match_candidates` from `voice-to-crm.py`. -/
def build_match_candidates (accounts : List String) : List (String × String) :=
  accounts.foldl addCandidates []

/-- Stable insertion of a string into a length-descending sorted list
(equal lengths keep their original relative order), matching Python's
stable `sorted(keys, key=len, reverse=True)`. -/
def insLenDesc (x : String) : List String → List String
  | [] => [x]
  | y :: t => if x.data.length < y.data.length then y :: insLenDesc x t else x :: y :: t

/-- Python's `sorted(keys, key=len, reverse=True)` (stable). -/
def sortLenDesc (l : List String) : List String := l.foldr insLenDesc []

/-- The step-2 pattern of `match_account`, compiled with `re.IGNORECASE`:
`(?:at|for|about|with|from|regarding)\s+(.+?)(?:\s+about|\s+regarding|\s*[,.]|\s+and\b|\s+they|\s+we|\s+I\b|$)`. -/
def prepRx : Rx :=
  seqList
    [altList [litCI "at", litCI "for", litCI "about", litCI "with", litCI "from",
              litCI "regarding"],
     wsPlus,
     Rx.grp (Rx.seq (Rx.cls (fun c => !(c == '\n')))
                    (Rx.starCls (fun c => !(c == '\n')) false)),
     altList [Rx.seq wsPlus (litCI "about"),
              Rx.seq wsPlus (litCI "regarding"),
              Rx.seq wsStar (altList [litCI ",", litCI "."]),
              seqList [wsPlus, litCI "and", Rx.wb],
              Rx.seq wsPlus (litCI "they"),
              Rx.seq wsPlus (litCI "we"),
              seqList [wsPlus, litCI "I", Rx.wb],
              Rx.eos]]

/-- Whether the prepositional step-2 search of `match_account` finds a match
in the text at all (the step runs its fuzzy lookup exactly when it does). -/
def prepTrigger (text : String) : Bool :=
  (reSearch prepRx text.data).isSome

/-- One row step of the longest-common-subsequence dynamic program: given the
previous row (entries for positions 1..n of `b`), the diagonal and left
values, produce the next row for character `ca`. -/
def lcsStep (ca : Char) : List Char → List Nat → Nat → Nat → List Nat
  | [], _, _, _ => []
  | b :: bs, prev, diag, left =>
    let up := prev.headD 0
    let cur := if ca == b then diag + 1 else max left up
    cur :: lcsStep ca bs (prev.tailD []) up cur

/-- Longest-common-subsequence length of two character lists. -/
def lcsLen (a b : List Char) : Nat :=
  (a.foldl (fun row ca => lcsStep ca b row 0 0) (b.map fun _ => 0)).getLastD 0

/-- Modelled from the spec: the similarity ratio of the resolver's fuzzy
stages.  The repository delegates it to an external "close match" utility
whose exact metric the spec leaves as an implementation choice, requiring
only a normalized score in `[0,1]` (suggesting a longest-common-subsequence
ratio) with thresholds 0.60/0.65.  We use `2*lcs(a,b) / (|a|+|b|)`,
represented as the pair (numerator, denominator). -/
def similarityRatio (a b : List Char) : Nat × Nat :=
  (2 * lcsLen a b, a.length + b.length)

/-- Ratio comparison `ratio ≥ num/den` by cross multiplication (a zero
denominator means two empty strings, treated as ratio 1). -/
def ratioGe (r : Nat × Nat) (num den : Nat) : Bool :=
  if r.2 = 0 then true else den * r.1 ≥ num * r.2

/-- Strict ratio comparison `r1 > r2`. -/
def ratioGt (r1 r2 : Nat × Nat) : Bool :=
  if r1.2 = 0 then (if r2.2 = 0 then false else r2.2 * 1 > r2.1 * 1) else
  if r2.2 = 0 then r1.2 * 1 < r1.1 * 1 else r2.2 * r1.1 > r1.2 * r2.1

/-- Python string comparison (code-point lexicographic). -/
def strLt : List Char → List Char → Bool
  | [], [] => false
  | [], _ :: _ => true
  | _ :: _, [] => false
  | a :: as, b :: bs => if a.toNat < b.toNat then true
    else if b.toNat < a.toNat then false else strLt as bs

/-- Modelled from the spec: `difflib.get_close_matches(word, keys, n=1,
cutoff)`.  Keep the candidates whose similarity ratio to `word` is at least
the cutoff and return the single best one (ties resolved toward the larger
string, as `heapq.nlargest` does on (score, string) pairs); `none` when no
candidate reaches the cutoff. -/
def get_close_matches_1 (word : List Char) (keys : List String)
    (cutNum cutDen : Nat) : Option String :=
  keys.foldl
    (fun best k =>
      let r := similarityRatio word k.data
      if ratioGe r cutNum cutDen then
        match best with
        | none => some k
        | some b =>
          let rb := similarityRatio word b.data
          if ratioGt r rb then some k
          else if ratioGt rb r then best
          else if strLt b.data k.data then some k else best
      else best)
    none

/-- The step-3 sliding windows of `match_account`: for window sizes 4, 3, 2
(larger first) and start positions left to right, the space-joined window. -/
def windowFrags (words : List (List Char)) : List (List Char) :=
  ([4, 3, 2] : List Nat).flatMap fun ws =>
    if ws ≤ words.length then
      (List.range (words.length - ws + 1)).map fun i =>
        List.intercalate [' '] ((words.drop i).take ws)
    else []

/-- `match_account` from `voice-to-crm.py`: the three-step resolver ladder.
Step 1: longest-first exact substring over candidate keys of length ≥ 4.
Step 2: prepositional fragment, fuzzily matched at cutoff 0.6.
Step 3: sliding 4/3/2-word windows, fuzzily matched at cutoff 0.65.
Returns the canonical name, or the empty string. -/
def match_account (text : String) (known_accounts : List String) : String :=
  let text_lower := pyLower text.data
  let candidates := build_match_candidates known_accounts
  let s1 : Option String :=
    ((sortLenDesc (dkeys candidates)).find?
      (fun cand => 4 ≤ cand.data.length && strContains cand.data text_lower)).bind
      (fun cand => dlookup candidates cand)
  let s2 : Option String :=
    (reSearch prepRx text.data).bind fun m =>
      (get_close_matches_1 (pyLower (pyStrip (m.cap.getD []))) (dkeys candidates) 3 5).bind
        fun k => dlookup candidates k
  let s3 : Option String :=
    ((windowFrags (pySplit text.data)).findSome? fun frag =>
      get_close_matches_1 (pyLower frag) (dkeys candidates) 13 20).bind
      fun k => dlookup candidates k
  ((s1.orElse fun _ => s2).orElse fun _ => s3).getD ""

/-- The first preamble pattern of `build_summary`:
`^(?:I |just |hey |log a \w+ |note |update )`, `re.IGNORECASE`. -/
def preambleRx1 : Rx :=
  Rx.seq Rx.bos
    (altList [litCI "I ", litCI "just ", litCI "hey ",
              seqList [litCI "log a ", wordPlus, litCI " "],
              litCI "note ", litCI "update "])

/-- The second preamble pattern of `build_summary`:
`^(?:called|emailed|met with|had a meeting with|spoke (?:to|with)|talked (?:to|with))\s+`,
`re.IGNORECASE`. -/
def preambleRx2 : Rx :=
  Rx.seq Rx.bos
    (Rx.seq
      (altList [litCI "called", litCI "emailed", litCI "met with",
                litCI "had a meeting with",
                Rx.seq (litCI "spoke ") (altList [litCI "to", litCI "with"]),
                Rx.seq (litCI "talked ") (altList [litCI "to", litCI "with"])])
      wsPlus)

/-- The preamble-stripping loop of `build_summary`: both patterns are applied
in sequence, each `re.sub` followed by `strip()`. -/
def stripPreambles (text : String) : String :=
  pyStripS (pyReSub preambleRx2 "" (pyStripS (pyReSub preambleRx1 "" (pyStripS text))))

/-- Python's `summary[0].upper() + summary[1:]` guarded by `if summary:`. -/
def capFirstPy (s : String) : String :=
  match s.data with
  | [] => s
  | c :: t => ⟨upperChar c :: t⟩

/-- `build_summary` from `voice-to-crm.py`: strip, apply both preamble
substitutions, fall back to the stripped original when fewer than 10
characters remain, and upper-case the first character.  The `account`,
`contact` and `activity_type` arguments are accepted (as in the source) but
unused. -/
def build_summary (text account contact activity_type : String) : String :=
  let summary := stripPreambles text
  let summary := if summary.data.length < 10 then pyStripS text else summary
  capFirstPy summary

/-- Modelled from the spec: `post_to_calproxy` posts the structured activity
to the CRM proxy's write endpoint over the network, returning whether the
call reported success (HTTP 200); transport errors yield `False`.  The
outcome is the `proxyOk` oracle; the payload fields do not influence it. -/
def post_to_calproxy (account contact activity_type summary : String)
    (proxyOk : Bool) : Bool :=
  proxyOk

/-- The structured activity record assembled by `process_transcription`.
Optional fields model keys that the Python dict only sometimes carries
(`error`, `posted`, `confirmation`); the wall-clock timestamp is omitted. -/
structure ActivityRecord where
  account : String
  contact : String
  activity_type : String
  summary : String
  matched : Bool
  error : Option String
  posted : Option Bool
  confirmation : Option String
deriving DecidableEq

/-- `process_transcription` from `voice-to-crm.py`, with the two directory
payloads and the post outcome supplied explicitly.  Returns the record
together with a flag recording whether a post to the proxy was attempted. -/
def process_transcription (text : String) (pipeline backup : List String)
    (proxyOk : Bool) : ActivityRecord × Bool :=
  let known_accounts := fetch_known_accounts pipeline backup
  let activity_type := detect_activity_type text
  let account := match_account text known_accounts
  let contact := extract_contact_name text account
  let summary := build_summary text account contact activity_type
  if account = "" then
    (⟨account, contact, activity_type, summary, account ≠ "",
      some "account_not_matched", none, none⟩, false)
  else
    let posted := post_to_calproxy account contact activity_type summary proxyOk
    let confirm := "Logged " ++ activity_type ++
      (if contact ≠ "" then " with " ++ contact else "") ++
      " at " ++ account ++ ": " ++ summary ++
      (if !posted then " (note: cal-proxy sync pending)" else "")
    (⟨account, contact, activity_type, summary, account ≠ "",
      none, some posted, some confirm⟩, true)

/-- The single search pattern of `extract_contact_name`: the prefix
alternation followed by `NAME_PATTERN`. -/
def contactRx : Rx := Rx.seq (CONTACT_PREFIXES.headD Rx.eps) NAME_PATTERN

/-- Case-insensitivity of a pattern: every character class is invariant
under ASCII lower-casing of its argument.  This holds for the patterns the
program compiles with `re.IGNORECASE`. -/
def RxCI : Rx → Prop
  | .cls p => ∀ c, p (lowerChar c) = p c
  | .starCls p _ => ∀ c, p (lowerChar c) = p c
  | .seq a b => RxCI a ∧ RxCI b
  | .alt a b => RxCI a ∧ RxCI b
  | .grp r => RxCI r
  | _ => True

/-- Lower-casing of a match result (consumed text, capture and rest). -/
def mresLower (m : MRes) : MRes :=
  ⟨pyLower m.consumed, m.cap.map pyLower, pyLower m.rest⟩

/-- The score of one category of `ACTIVITY_PATTERNS` against a text. -/
def categoryScore (text : String) (category : String) : Nat :=
  match ACTIVITY_PATTERNS.find? (fun tp => tp.1 = category) with
  | some tp => patScore (pyLower text.data) tp.2
  | none => 0

/-- Spec-side model of the classifier, written from the specification's
words: the score of a category is the count of its patterns matching the
lowercased text; the category with the highest score wins; ties are broken
by declaration order, first declared wins (call, email, meeting, note); if
every category scores zero the result is `note`. -/
def classifySpecModel (text : String) : String :=
  let m := max (categoryScore text "call") (max (categoryScore text "email")
    (max (categoryScore text "meeting") (categoryScore text "note")))
  if m = 0 then "note"
  else if categoryScore text "call" = m then "call"
  else if categoryScore text "email" = m then "email"
  else if categoryScore text "meeting" = m then "meeting"
  else "note"

/-! ## Character-level lemmas -/

/-- Characterization of `lowerChar`: it shifts `A`–`Z` by 32 and fixes
everything else. -/
theorem lowerChar_spec (c : Char) :
    (65 ≤ c.toNat ∧ c.toNat ≤ 90 ∧ (lowerChar c).toNat = c.toNat + 32) ∨
    (¬(65 ≤ c.toNat ∧ c.toNat ≤ 90) ∧ lowerChar c = c) := by
  by_cases h : 65 ≤ c.toNat ∧ c.toNat ≤ 90
  · left
    refine ⟨h.1, h.2, ?_⟩
    have hv : (c.toNat + 32).isValidChar := Or.inl (by omega)
    rw [lowerChar, if_pos h]
    show (Char.ofNat (c.toNat + 32)).toNat = c.toNat + 32
    unfold Char.ofNat
    rw [dif_pos hv]
    simp [Char.ofNatAux, Char.toNat, UInt32.toNat, BitVec.toNat_ofNatLt]
  · right
    simp [lowerChar, h]

/-- ASCII lower-casing is idempotent. -/
theorem lowerChar_idem (c : Char) : lowerChar (lowerChar c) = lowerChar c := by
  rcases lowerChar_spec c with ⟨h1, h2, h3⟩ | ⟨h, heq⟩
  · rcases lowerChar_spec (lowerChar c) with ⟨g1, g2, g3⟩ | ⟨g, geq⟩
    · omega
    · exact geq
  · simp only [heq]

/-- Whitespace is invariant under lower-casing. -/
theorem pyIsSpace_lowerChar (c : Char) : pyIsSpace (lowerChar c) = pyIsSpace c := by
  rcases lowerChar_spec c with ⟨h1, h2, h3⟩ | ⟨h, heq⟩
  · have e1 : pyIsSpace (lowerChar c) = false := by
      simp only [pyIsSpace, h3, Bool.or_eq_false_iff, decide_eq_false_iff_not]
      omega
    have e2 : pyIsSpace c = false := by
      simp only [pyIsSpace, Bool.or_eq_false_iff, decide_eq_false_iff_not]
      omega
    rw [e1, e2]
  · rw [heq]

/-- Word-character status is invariant under lower-casing. -/
theorem isWordChar_lowerChar (c : Char) : isWordChar (lowerChar c) = isWordChar c := by
  rcases lowerChar_spec c with ⟨h1, h2, h3⟩ | ⟨h, heq⟩
  · have e1 : isWordChar (lowerChar c) = true := by
      simp only [isWordChar, h3, Bool.or_eq_true, Bool.and_eq_true, decide_eq_true_eq]
      omega
    have e2 : isWordChar c = true := by
      simp only [isWordChar, Bool.or_eq_true, Bool.and_eq_true, decide_eq_true_eq]
      omega
    rw [e1, e2]
  · rw [heq]

/-- The newline test of the `.` class is invariant under lower-casing. -/
theorem lowerChar_eq_newline (c : Char) : (lowerChar c == '\n') = (c == '\n') := by
  have hnl : ('\n' : Char).toNat = 10 := by decide
  rcases lowerChar_spec c with ⟨h1, h2, h3⟩ | ⟨h, heq⟩
  · have hne1 : (lowerChar c == '\n') = false := by
      simp only [beq_eq_false_iff_ne, ne_eq]
      intro he
      rw [he, hnl] at h3
      omega
    have hne2 : (c == '\n') = false := by
      simp only [beq_eq_false_iff_ne, ne_eq]
      intro he
      rw [he, hnl] at h1
      omega
    rw [hne1, hne2]
  · rw [heq]

/-! ## Case-insensitive patterns see only the lower-cased text -/

/-- `nextPrev` commutes with lower-casing. -/
theorem nextPrev_map (prev : Option Char) (consumed : List Char) :
    nextPrev (prev.map lowerChar) (pyLower consumed) = (nextPrev prev consumed).map lowerChar := by
  simp only [nextPrev, pyLower, List.getLast?_map]
  cases consumed.getLast? <;> simp

/-- Combining two lower-cased match results is lower-casing the combination. -/
theorem mresLower_combine (m m2 : MRes) :
    (⟨(mresLower m).consumed ++ (mresLower m2).consumed,
      ((mresLower m).cap).orElse (fun _ => (mresLower m2).cap),
      (mresLower m2).rest⟩ : MRes) =
    mresLower ⟨m.consumed ++ m2.consumed, m.cap.orElse (fun _ => m2.cap), m2.rest⟩ := by
  cases m with
  | mk c1 cap1 r1 =>
    cases m2 with
    | mk c2 cap2 r2 =>
      cases cap1 <;> simp [mresLower, pyLower, Option.orElse]

/-- A pattern whose classes are case-fold invariant behaves on the
lower-cased text exactly as on the original text, up to lower-casing the
match results. -/
theorem runRx_map_lower (rx : Rx) (h : RxCI rx) :
    ∀ (prev : Option Char) (s : List Char),
    runRx rx (prev.map lowerChar) (pyLower s) = (runRx rx prev s).map mresLower := by
  induction rx with
  | eps =>
    intro prev s
    simp [runRx, mresLower, pyLower]
  | cls p =>
    intro prev s
    cases s with
    | nil => simp [runRx, pyLower]
    | cons c cs =>
      simp only [runRx, pyLower, List.map_cons]
      rw [h c]
      by_cases hp : p c
      · simp [hp, mresLower, pyLower]
      · simp [hp]
  | seq a b iha ihb =>
    intro prev s
    obtain ⟨ha, hb⟩ := h
    simp only [runRx, iha ha prev s]
    rw [List.flatMap_map, List.map_flatMap]
    congr 1
    funext m
    try simp only [Function.comp_apply]
    have h1 : (mresLower m).consumed = pyLower m.consumed := rfl
    have h2 : (mresLower m).rest = pyLower m.rest := rfl
    rw [h1, h2, nextPrev_map, ihb hb, List.map_map, List.map_map]
    congr 1
    funext m2
    try simp only [Function.comp_apply]
    exact mresLower_combine m m2
  | alt a b iha ihb =>
    intro prev s
    obtain ⟨ha, hb⟩ := h
    simp [runRx, iha ha, ihb hb]
  | starCls p g =>
    intro prev s
    have hcomp : (p ∘ lowerChar) = p := by
      funext c
      exact h c
    simp only [runRx, pyLower, List.takeWhile_map, hcomp, List.length_map]
    cases g <;> simp [List.map_map, mresLower, pyLower, Function.comp,
      List.map_take, List.map_drop]
  | grp r ihr =>
    intro prev s
    simp [runRx, ihr h, List.map_map, Function.comp, mresLower]
  | wb =>
    intro prev s
    have hbefore :
        (match prev.map lowerChar with | some c => isWordChar c | none => false) =
        (match prev with | some c => isWordChar c | none => false) := by
      cases prev with
      | none => rfl
      | some c => simp [isWordChar_lowerChar]
    have hafter :
        (match pyLower s with | c :: _ => isWordChar c | [] => false) =
        (match s with | c :: _ => isWordChar c | [] => false) := by
      cases s with
      | nil => rfl
      | cons c cs => simp [pyLower, isWordChar_lowerChar]
    simp only [runRx, hbefore, hafter]
    split <;> simp [mresLower, pyLower]
  | bos =>
    intro prev s
    cases prev <;> simp [runRx, mresLower, pyLower]
  | eos =>
    intro prev s
    cases s <;> simp [runRx, mresLower, pyLower]

/-- `re.search` on the lower-cased text mirrors the search on the original
text, lower-casing the outcome. -/
theorem searchFrom_map_lower (r : Rx) (h : RxCI r) :
    ∀ (prev : Option Char) (s : List Char),
    searchFrom r (prev.map lowerChar) (pyLower s) =
      (searchFrom r prev s).map fun pm => (pyLower pm.1, mresLower pm.2) := by
  intro prev s
  induction s generalizing prev with
  | nil =>
    have hr := runRx_map_lower r h prev []
    simp only [pyLower, List.map_nil] at hr ⊢
    simp only [searchFrom, hr]
    cases runRx r prev [] <;> simp
  | cons c cs ih =>
    have hr := runRx_map_lower r h prev (c :: cs)
    simp only [pyLower, List.map_cons] at hr ⊢
    simp only [searchFrom, hr]
    cases runRx r prev (c :: cs) with
    | cons m ms => simp
    | nil =>
      simp only [List.map_nil]
      have ihc := ih (some c)
      simp only [pyLower, Option.map_some] at ihc
      rw [show (some (lowerChar c)) = Option.map lowerChar (some c) from rfl, ihc]
      cases searchFrom r (some c) cs <;> simp [pyLower]

set_option maxHeartbeats 2000000 in
/-- The `re.IGNORECASE` prepositional pattern of the resolver's second step
is case-fold invariant in every character class. -/
theorem RxCI_prepRx : RxCI prepRx := by
  rw [prepRx]
  repeat' apply And.intro
  all_goals first
    | trivial
    | exact pyIsSpace_lowerChar
    | (intro c; exact congrArg Bool.not (lowerChar_eq_newline c))
    | (intro c; simp only [lowerChar_idem])

/-! ## Dict and sorting lemmas -/

/-- Looking up the key just inserted yields the inserted value. -/
theorem dlookup_dinsert_self (m : List (String × String)) (k v : String) :
    dlookup (dinsert m k v) k = some v := by
  induction m with
  | nil => simp [dinsert, dlookup]
  | cons p t ih =>
    obtain ⟨k0, v0⟩ := p
    by_cases h : k0 = k
    · simp [dinsert, dlookup, h]
    · simp [dinsert, dlookup, h, ih]

/-- Inserting one key leaves other lookups unchanged. -/
theorem dlookup_dinsert_ne (m : List (String × String)) (k v k' : String)
    (h : k' ≠ k) : dlookup (dinsert m k v) k' = dlookup m k' := by
  have h2 : ¬(k = k') := fun he => h he.symm
  induction m with
  | nil => simp [dinsert, dlookup, h2]
  | cons p t ih =>
    obtain ⟨k0, v0⟩ := p
    by_cases h0 : k0 = k
    · subst h0
      simp [dinsert, dlookup, h2]
    · simp [dinsert, dlookup, h0, ih]

/-- The key list after an insertion. -/
theorem dkeys_dinsert (m : List (String × String)) (k v : String) :
    dkeys (dinsert m k v) = if k ∈ dkeys m then dkeys m else dkeys m ++ [k] := by
  induction m with
  | nil => simp [dinsert, dkeys]
  | cons p t ih =>
    obtain ⟨k0, v0⟩ := p
    by_cases h : k0 = k
    · simp [dinsert, dkeys, h]
    · simp only [dinsert, if_neg h, dkeys, List.map_cons] at ih ⊢
      rw [ih]
      have h2 : ¬(k = k0) := fun he => h he.symm
      by_cases hm : k ∈ List.map Prod.fst t
      · simp [hm, h2]
      · simp [hm, h2]

/-- Keys survive insertions. -/
theorem mem_dkeys_dinsert_of_mem (m : List (String × String)) (k v k' : String)
    (h : k' ∈ dkeys m) : k' ∈ dkeys (dinsert m k v) := by
  rw [dkeys_dinsert]
  split <;> simp [h]

/-- The inserted key is a key. -/
theorem mem_dkeys_dinsert_self (m : List (String × String)) (k v : String) :
    k ∈ dkeys (dinsert m k v) := by
  rw [dkeys_dinsert]
  split <;> simp_all

/-- A looked-up value is among the dict's values. -/
theorem mem_dvalues_of_dlookup (m : List (String × String)) (k v : String)
    (h : dlookup m k = some v) : v ∈ dvalues m := by
  induction m with
  | nil => simp [dlookup] at h
  | cons p t ih =>
    obtain ⟨k0, v0⟩ := p
    by_cases h0 : k0 = k
    · simp only [dlookup, if_pos h0, Option.some.injEq] at h
      simp [dvalues, h]
    · simp only [dlookup, if_neg h0] at h
      have hv := ih h
      simp only [dvalues, List.map_cons, List.mem_cons]
      right
      simpa [dvalues] using hv

/-- Nodup keys survive insertion. -/
theorem dkeys_nodup_dinsert (m : List (String × String)) (k v : String)
    (h : (dkeys m).Nodup) : (dkeys (dinsert m k v)).Nodup := by
  rw [dkeys_dinsert]
  split
  · exact h
  · refine List.Nodup.append h (List.nodup_singleton k) ?_
    intro a ha hb
    simp only [List.mem_singleton] at hb
    subst hb
    simp_all

/-- Every binding of an insertion satisfies a pairwise property preserved by
the original dict and enjoyed by the inserted pair. -/
theorem dinsert_forall (m : List (String × String)) (k v : String)
    (P : String → String → Prop)
    (hm : ∀ p ∈ m, P p.1 p.2) (hkv : P k v) :
    ∀ p ∈ dinsert m k v, P p.1 p.2 := by
  induction m with
  | nil => simpa [dinsert]
  | cons q t ih =>
    obtain ⟨k0, v0⟩ := q
    by_cases h : k0 = k
    · subst h
      intro p hp
      rw [show dinsert ((k0, v0) :: t) k0 v = (k0, v) :: t by simp [dinsert]] at hp
      rw [List.mem_cons] at hp
      rcases hp with heq | hmem
      · subst heq
        exact hkv
      · exact hm p (List.mem_cons_of_mem _ hmem)
    · intro p hp
      simp only [dinsert, if_neg h, List.mem_cons] at hp
      rcases hp with heq | hmem
      · subst heq
        exact hm _ (List.mem_cons_self _ _)
      · exact ih (fun q hq => hm q (List.mem_cons_of_mem _ hq)) p hmem

/-- Membership in the stable length-descending insertion. -/
theorem mem_insLenDesc (x y : String) (l : List String) :
    x ∈ insLenDesc y l ↔ x = y ∨ x ∈ l := by
  induction l with
  | nil => simp [insLenDesc]
  | cons z t ih =>
    simp only [insLenDesc]
    split
    · simp only [List.mem_cons, ih]
      tauto
    · simp only [List.mem_cons]

/-- `sortLenDesc` is a permutation membership-wise. -/
theorem mem_sortLenDesc (x : String) (l : List String) :
    x ∈ sortLenDesc l ↔ x ∈ l := by
  induction l with
  | nil => simp [sortLenDesc]
  | cons y t ih =>
    simp only [sortLenDesc, List.foldr_cons] at ih ⊢
    rw [mem_insLenDesc, ih, List.mem_cons]

/-- Keys survive a conditional insertion. -/
theorem mem_dkeys_ite (c : Prop) [Decidable c] (m : List (String × String))
    (k' v k : String) (h : k ∈ dkeys m) :
    k ∈ dkeys (if c then dinsert m k' v else m) := by
  split
  · exact mem_dkeys_dinsert_of_mem m k' v k h
  · exact h

/-- Keys survive one `build_match_candidates` iteration. -/
theorem dkeys_addCandidates_mono (m : List (String × String)) (name k : String)
    (h : k ∈ dkeys m) : k ∈ dkeys (addCandidates m name) := by
  dsimp only [addCandidates]
  apply mem_dkeys_ite
  apply mem_dkeys_ite
  apply mem_dkeys_ite
  exact mem_dkeys_dinsert_of_mem m _ name k h

/-- The lower-cased full name is always a key after its iteration. -/
theorem mem_dkeys_addCandidates_self (m : List (String × String)) (name : String) :
    pyLowerS name ∈ dkeys (addCandidates m name) := by
  dsimp only [addCandidates]
  apply mem_dkeys_ite
  apply mem_dkeys_ite
  apply mem_dkeys_ite
  exact mem_dkeys_dinsert_self m (pyLowerS name) name

/-- Keys survive the whole `build_match_candidates` fold. -/
theorem dkeys_foldl_addCandidates_mono (accounts : List String) :
    ∀ (m : List (String × String)) (k : String),
    k ∈ dkeys m → k ∈ dkeys (accounts.foldl addCandidates m) := by
  induction accounts with
  | nil => intro m k h; simpa using h
  | cons a t ih =>
    intro m k h
    simp only [List.foldl_cons]
    exact ih (addCandidates m a) k (dkeys_addCandidates_mono m a k h)

/-- Every member of the directory contributes its lower-cased full name as a
key of the candidate fold, whatever the accumulator. -/
theorem mem_dkeys_foldl_addCandidates (accounts : List String) :
    ∀ (m : List (String × String)) (A : String), A ∈ accounts →
    pyLowerS A ∈ dkeys (accounts.foldl addCandidates m) := by
  induction accounts with
  | nil => intro m A h; simp at h
  | cons a t ih =>
    intro m A h
    simp only [List.foldl_cons]
    rcases List.mem_cons.mp h with heq | hmem
    · subst heq
      exact dkeys_foldl_addCandidates_mono t _ _ (mem_dkeys_addCandidates_self m A)
    · exact ih (addCandidates m a) A hmem

/-- Every directory name contributes its lower-cased full name as a key of
the candidate index. -/
theorem mem_dkeys_build_match_candidates (accounts : List String) (A : String)
    (h : A ∈ accounts) :
    pyLowerS A ∈ dkeys (build_match_candidates accounts) :=
  mem_dkeys_foldl_addCandidates accounts [] A h

/-! ## C1: exact-substring resolution -/

/-- C1, counterexample.  The claim "for every canonical account name A of
length ≥ 4 and every text containing A verbatim (case-insensitively),
`resolve` with A in the directory returns A" fails on the code: with the
directory ["Acme", "Acme Corp"], the first-word key "acme" of "Acme Corp"
overwrites the full-name key of "Acme" in the candidate index, so the text
"met acme" (which contains "Acme" case-insensitively) resolves to
"Acme Corp", not "Acme". -/
theorem c1_counterexample :
    ("Acme" : String) ∈ (["Acme", "Acme Corp"] : List String) ∧
    4 ≤ ("Acme" : String).data.length ∧
    strContains (pyLower ("Acme" : String).data) (pyLower ("met acme" : String).data) = true ∧
    match_account "met acme" ["Acme", "Acme Corp"] = "Acme Corp" ∧
    ("Acme Corp" : String) ≠ "Acme" := by
  refine ⟨by decide, by decide, by decide, by decide, by decide⟩

/-- C1, amended.  For A in the directory with |A| ≥ 4 occurring verbatim
(case-insensitively) in the text, the resolver returns A through the exact
substring step, provided every candidate key of length ≥ 4 occurring in the
lowercased text still maps to A in the candidate index (i.e. no longer key of
another account occurs in the text and no other account overwrote A's keys). -/
theorem c1_resolve_exact_substring (A text : String) (accounts : List String)
    (hmem : A ∈ accounts) (hlen : 4 ≤ A.data.length)
    (hsub : strContains (pyLower A.data) (pyLower text.data) = true)
    (hkeys : ∀ k ∈ dkeys (build_match_candidates accounts),
      4 ≤ k.data.length → strContains k.data (pyLower text.data) = true →
      dlookup (build_match_candidates accounts) k = some A) :
    match_account text accounts = A := by
  have hex : ∃ x ∈ sortLenDesc (dkeys (build_match_candidates accounts)),
      (4 ≤ x.data.length && strContains x.data (pyLower text.data)) = true := by
    refine ⟨pyLowerS A,
      (mem_sortLenDesc _ _).mpr (mem_dkeys_build_match_candidates accounts A hmem), ?_⟩
    have hlen2 : (pyLowerS A).data.length = A.data.length := by
      simp [pyLowerS, pyLower]
    simp only [Bool.and_eq_true, decide_eq_true_eq]
    constructor
    · omega
    · exact hsub
  have hfind : ((sortLenDesc (dkeys (build_match_candidates accounts))).find?
      (fun cand => 4 ≤ cand.data.length && strContains cand.data (pyLower text.data))).isSome := by
    rw [List.find?_isSome]
    exact hex
  cases heq : (sortLenDesc (dkeys (build_match_candidates accounts))).find?
      (fun cand => 4 ≤ cand.data.length && strContains cand.data (pyLower text.data)) with
  | none =>
    rw [heq] at hfind
    simp at hfind
  | some k0 =>
    have hpred := List.find?_some heq
    simp only [Bool.and_eq_true, decide_eq_true_eq] at hpred
    have hk0mem : k0 ∈ dkeys (build_match_candidates accounts) :=
      (mem_sortLenDesc _ _).mp (List.mem_of_find?_eq_some heq)
    have hlk := hkeys k0 hk0mem hpred.1 hpred.2
    simp only [match_account]
    rw [heq]
    simp [hlk, Option.orElse]

/-- C1 witness: a concrete instance of the amended exact-substring theorem. -/
theorem c1_resolve_exact_substring_witness :
    match_account "call SaskTel now" ["SaskTel"] = "SaskTel" :=
  c1_resolve_exact_substring "SaskTel" "call SaskTel now" ["SaskTel"]
    (by decide) (by decide) (by decide) (by decide)

/-! ## C2: case sensitivity of the prepositional step -/

/-- C2, counterexample.  The claim says the cue-word search of the resolver's
second step is case-sensitive, so a cue word occurring only in a different
letter case should not trigger it.  But the source compiles the pattern with
`re.IGNORECASE`: in "AT Brandt" the cue "at" occurs only upper-cased, yet the
step triggers; the control text "XY Brandt" (no cue in any case) does not. -/
theorem c2_counterexample :
    prepTrigger "AT Brandt" = true ∧ prepTrigger "XY Brandt" = false := by
  refine ⟨by decide, by decide⟩

/-- C2, amended.  The prepositional cue search is case-insensitive: the step
triggers on a text exactly when it triggers on its lower-cased form, because
every character class of the `re.IGNORECASE` pattern is case-fold invariant. -/
theorem c2_prep_search_case_insensitive (text : String) :
    prepTrigger (pyLowerS text) = prepTrigger text := by
  simp only [prepTrigger, reSearch, pyLowerS]
  have h : searchFrom prepRx none (pyLower text.data) =
      (searchFrom prepRx none text.data).map fun pm => (pyLower pm.1, mresLower pm.2) :=
    searchFrom_map_lower prepRx RxCI_prepRx none text.data
  rw [h]
  cases searchFrom prepRx none text.data <;> simp

/-- C2 witness: the case-insensitivity theorem at the counterexample text. -/
theorem c2_prep_search_case_insensitive_witness :
    prepTrigger (pyLowerS "AT Brandt") = prepTrigger "AT Brandt" :=
  c2_prep_search_case_insensitive "AT Brandt"

/-! ## C3: the first-word candidate key threshold -/

/-- C3, counterexample.  The claim says a name whose first word has length
exactly 4 contributes no first-word key.  The source keeps the first word
whenever `len(first) > 3`: the name "Acme Widgets" has first word "Acme" of
length 4, and the candidate index for the one-name directory maps "acme" to
"Acme Widgets" (no other derivation rule of this name produces "acme": the
full-name key is "acme widgets" and the acronym is "aw"). -/
theorem c3_counterexample :
    (pySplit ("Acme Widgets" : String).data).headD [] = ("Acme" : String).data ∧
    (("Acme" : String).data).length = 4 ∧
    dlookup (build_match_candidates ["Acme Widgets"]) "acme" = some "Acme Widgets" := by
  refine ⟨by decide, by decide, by decide⟩

/-- C3, amended.  The first-word key is derived exactly when the first word
is longer than three characters (so length 4 does contribute): for any
single-name directory whose first word exceeds three characters, the index
maps the lower-cased first word to the name. -/
theorem c3_first_word_key (name : String)
    (h : 3 < ((pySplit name.data).headD []).length) :
    dlookup (build_match_candidates [name])
      (⟨pyLower ((pySplit name.data).headD [])⟩ : String) = some name := by
  simp only [build_match_candidates, List.foldl_cons, List.foldl_nil]
  dsimp only [addCandidates]
  rw [if_pos h]
  exact dlookup_dinsert_self _ _ _

/-- C3 witness: the amended first-word rule at a concrete name. -/
theorem c3_first_word_key_witness :
    dlookup (build_match_candidates ["Acme Widgets"])
      (⟨pyLower ((pySplit ("Acme Widgets" : String).data).headD [])⟩ : String) =
      some "Acme Widgets" :=
  c3_first_word_key "Acme Widgets" (by decide)

/-! ## C4: directory merge invariants -/

/-- An insertion keeps an already-present key present. -/
theorem dlookup_dinsert_isSome (m : List (String × String)) (k v k' : String)
    (h : (dlookup m k').isSome) : (dlookup (dinsert m k v) k').isSome := by
  by_cases he : k' = k
  · subst he
    rw [dlookup_dinsert_self]
    rfl
  · rw [dlookup_dinsert_ne m k v k' he]
    exact h

/-- A fold of inserts whose pairs satisfy a binding property preserves that
property; instantiated for the pipeline phase. -/
theorem pipeFold_forall (l : List String) :
    ∀ (m : List (String × String)), (∀ q ∈ m, q.1 = pyLowerS q.2) →
    ∀ q ∈ List.foldl (fun m a => if a ≠ "" then dinsert m (pyLowerS a) a else m) m l,
      q.1 = pyLowerS q.2 := by
  induction l with
  | nil => intro m hm; simpa using hm
  | cons a t ih =>
    intro m hm
    simp only [List.foldl_cons]
    refine ih _ ?_
    dsimp only
    split
    · exact dinsert_forall m (pyLowerS a) a (fun k v => k = pyLowerS v) hm rfl
    · exact hm

/-- The binding property through the backup phase. -/
theorem backupFold_forall (l : List String) :
    ∀ (m : List (String × String)), (∀ q ∈ m, q.1 = pyLowerS q.2) →
    ∀ q ∈ backupFold m l, q.1 = pyLowerS q.2 := by
  induction l with
  | nil => intro m hm; simpa [backupFold] using hm
  | cons a t ih =>
    intro m hm
    have hstep : ∀ mm : List (String × String), (∀ q ∈ mm, q.1 = pyLowerS q.2) →
        ∀ q ∈ backupFold mm t, q.1 = pyLowerS q.2 := fun mm hmm => by
      have := ih mm hmm
      exact this
    rw [backupFold, List.foldl_cons]
    dsimp only
    split
    · split
      · exact hstep _ (dinsert_forall m _ _ (fun k v => k = pyLowerS v) hm rfl)
      · exact hstep _ hm
    · exact hstep _ hm

/-- The binding property through a plain lower-key insert fold (the
fallback phase and its key lemma shape). -/
theorem lowerFold_forall (l : List String) :
    ∀ (m : List (String × String)), (∀ q ∈ m, q.1 = pyLowerS q.2) →
    ∀ q ∈ List.foldl (fun m n => dinsert m (pyLowerS n) n) m l, q.1 = pyLowerS q.2 := by
  induction l with
  | nil => intro m hm; simpa using hm
  | cons a t ih =>
    intro m hm
    simp only [List.foldl_cons]
    exact ih _ (dinsert_forall m _ _ (fun k v => k = pyLowerS v) hm rfl)

/-- Every binding of the account map pairs a name with its lower-cased key. -/
theorem accountsMap_inv (pipeline backup : List String) :
    ∀ q ∈ accountsMap pipeline backup, q.1 = pyLowerS q.2 := by
  rw [accountsMap, fallbackFold, pipelineFold]
  refine lowerFold_forall fallbackAccounts _ ?_
  refine backupFold_forall backup _ ?_
  refine pipeFold_forall pipeline _ ?_
  simp

/-- Duplicate-free keys through the pipeline phase. -/
theorem pipeFold_nodup (l : List String) :
    ∀ (m : List (String × String)), (dkeys m).Nodup →
    (dkeys (List.foldl (fun m a => if a ≠ "" then dinsert m (pyLowerS a) a else m) m l)).Nodup := by
  induction l with
  | nil => intro m hm; simpa using hm
  | cons a t ih =>
    intro m hm
    simp only [List.foldl_cons]
    refine ih _ ?_
    dsimp only
    split
    · exact dkeys_nodup_dinsert m _ _ hm
    · exact hm

/-- Duplicate-free keys through the backup phase. -/
theorem backupFold_nodup (l : List String) :
    ∀ (m : List (String × String)), (dkeys m).Nodup →
    (dkeys (backupFold m l)).Nodup := by
  induction l with
  | nil => intro m hm; simpa [backupFold] using hm
  | cons a t ih =>
    intro m hm
    have hstep : ∀ mm : List (String × String), (dkeys mm).Nodup →
        (dkeys (backupFold mm t)).Nodup := fun mm hmm => ih mm hmm
    rw [backupFold, List.foldl_cons]
    dsimp only
    split
    · split
      · exact hstep _ (dkeys_nodup_dinsert m _ _ hm)
      · exact hstep _ hm
    · exact hstep _ hm

/-- Duplicate-free keys through a plain lower-key insert fold. -/
theorem lowerFold_nodup (l : List String) :
    ∀ (m : List (String × String)), (dkeys m).Nodup →
    (dkeys (List.foldl (fun m n => dinsert m (pyLowerS n) n) m l)).Nodup := by
  induction l with
  | nil => intro m hm; simpa using hm
  | cons a t ih =>
    intro m hm
    simp only [List.foldl_cons]
    exact ih _ (dkeys_nodup_dinsert m _ _ hm)

/-- The account map's keys are duplicate-free. -/
theorem accountsMap_nodup (pipeline backup : List String) :
    (dkeys (accountsMap pipeline backup)).Nodup := by
  rw [accountsMap, fallbackFold, pipelineFold]
  refine lowerFold_nodup fallbackAccounts _ ?_
  refine backupFold_nodup backup _ ?_
  refine pipeFold_nodup pipeline _ ?_
  simp [dkeys]

/-- The directory names are pairwise distinct case-insensitively. -/
theorem fetch_known_accounts_pairwise (pipeline backup : List String) :
    List.Pairwise (fun a b => pyLowerS a ≠ pyLowerS b)
      (fetch_known_accounts pipeline backup) := by
  have hinv := accountsMap_inv pipeline backup
  have hnd := accountsMap_nodup pipeline backup
  rw [fetch_known_accounts, dvalues, List.pairwise_map]
  rw [dkeys, List.Nodup, List.pairwise_map] at hnd
  refine hnd.imp_of_mem ?_
  intro a b ha hb hne
  rw [hinv a ha, hinv b hb] at hne
  exact hne

/-- An insert fold with keys all different from `k` leaves `k`'s lookup
unchanged. -/
theorem lowerFold_lookup_of_ne (l : List String) :
    ∀ (m : List (String × String)) (k : String), (∀ x ∈ l, pyLowerS x ≠ k) →
    dlookup (l.foldl (fun m n => dinsert m (pyLowerS n) n) m) k = dlookup m k := by
  induction l with
  | nil => intro m k _; rfl
  | cons a t ih =>
    intro m k hk
    simp only [List.foldl_cons]
    rw [ih _ k (fun x hx => hk x (List.mem_cons_of_mem _ hx))]
    exact dlookup_dinsert_ne m _ a k (fun he => hk a (List.mem_cons_self _ _) he.symm)

/-- With pairwise case-insensitively distinct names, a plain lower-key
insert fold stores each name under its own key. -/
theorem lowerFold_lookup_self (l : List String)
    (hpw : List.Pairwise (fun a b => pyLowerS a ≠ pyLowerS b) l) :
    ∀ (m : List (String × String)) (n : String), n ∈ l →
    dlookup (l.foldl (fun m n => dinsert m (pyLowerS n) n) m) (pyLowerS n) = some n := by
  induction l with
  | nil => intro m n h; simp at h
  | cons a t ih =>
    intro m n h
    simp only [List.foldl_cons]
    rcases List.mem_cons.mp h with heq | hmem
    · subst heq
      have hne : ∀ x ∈ t, pyLowerS x ≠ pyLowerS n :=
        fun x hx => Ne.symm ((List.pairwise_cons.mp hpw).1 x hx)
      rw [lowerFold_lookup_of_ne t _ (pyLowerS n) hne]
      exact dlookup_dinsert_self m _ n
    · exact ih (List.pairwise_cons.mp hpw).2 _ n hmem

/-- C4 support: every hardcoded name is present, with its exact casing. -/
theorem fallback_mem_fetch (pipeline backup : List String) (n : String)
    (h : n ∈ fallbackAccounts) :
    n ∈ fetch_known_accounts pipeline backup := by
  have hpw : List.Pairwise (fun a b => pyLowerS a ≠ pyLowerS b) fallbackAccounts := by
    decide
  have hl : dlookup (accountsMap pipeline backup) (pyLowerS n) = some n := by
    rw [accountsMap, fallbackFold]
    exact lowerFold_lookup_self fallbackAccounts hpw _ n h
  exact mem_dvalues_of_dlookup _ _ _ hl

/-- The pipeline fold keeps present keys present. -/
theorem pipeFold_preserves_isSome (l : List String) :
    ∀ (m : List (String × String)) (k : String), (dlookup m k).isSome →
    (dlookup (List.foldl (fun m a => if a ≠ "" then dinsert m (pyLowerS a) a else m) m l) k).isSome := by
  induction l with
  | nil => intro m k h; simpa using h
  | cons a t ih =>
    intro m k h
    simp only [List.foldl_cons]
    refine ih _ k ?_
    dsimp only
    split
    · exact dlookup_dinsert_isSome m _ a k h
    · exact h

/-- A nonempty pipeline name makes its case-insensitive key present. -/
theorem pipeFold_isSome_of_mem (l : List String) :
    ∀ (m : List (String × String)) (x : String), x ∈ l → x ≠ "" →
    (dlookup (List.foldl (fun m a => if a ≠ "" then dinsert m (pyLowerS a) a else m) m l) (pyLowerS x)).isSome := by
  induction l with
  | nil => intro m x h; simp at h
  | cons a t ih =>
    intro m x h hx
    simp only [List.foldl_cons]
    rcases List.mem_cons.mp h with heq | hmem
    · subst heq
      refine pipeFold_preserves_isSome t _ (pyLowerS x) ?_
      dsimp only
      rw [if_pos hx, dlookup_dinsert_self]
      rfl
    · exact ih _ x hmem hx

/-- Provenance of a pipeline-phase binding: either it is a nonempty pipeline
name stored under its lower-cased key, or it was already in the accumulator. -/
theorem pipeFold_provenance (l : List String) :
    ∀ (m : List (String × String)) (k v : String),
    dlookup (List.foldl (fun m a => if a ≠ "" then dinsert m (pyLowerS a) a else m) m l) k = some v →
    (v ∈ l ∧ v ≠ "" ∧ pyLowerS v = k) ∨ dlookup m k = some v := by
  induction l with
  | nil => intro m k v h; right; simpa using h
  | cons a t ih =>
    intro m k v h
    simp only [List.foldl_cons] at h
    rcases ih _ k v h with hl | hm
    · exact Or.inl ⟨List.mem_cons_of_mem _ hl.1, hl.2⟩
    · by_cases ha : a ≠ ""
      · rw [if_pos ha] at hm
        by_cases hk : k = pyLowerS a
        · subst hk
          rw [dlookup_dinsert_self] at hm
          left
          obtain rfl : a = v := by injection hm
          exact ⟨List.mem_cons_self _ _, ha, rfl⟩
        · rw [dlookup_dinsert_ne m _ a k (fun he => hk he)] at hm
          exact Or.inr hm
      · rw [if_neg ha] at hm
        exact Or.inr hm

/-- Unfolding one step of the backup fold. -/
theorem backupFold_cons (m : List (String × String)) (a : String) (t : List String) :
    backupFold m (a :: t) =
    backupFold
      (if pyStartsWith "xits_acct_".data a.data then
        if dlookup m (pyLowerS (⟨pyStrip (pyReplaceL "_".data " ".data
            (pyReplaceL "xits_acct_".data [] a.data))⟩ : String)) = none then
          dinsert m (pyLowerS (⟨pyStrip (pyReplaceL "_".data " ".data
            (pyReplaceL "xits_acct_".data [] a.data))⟩ : String))
            (⟨pyStrip (pyReplaceL "_".data " ".data
              (pyReplaceL "xits_acct_".data [] a.data))⟩ : String)
        else m
      else m) t := rfl

/-- The backup phase never changes the binding of an already-present key. -/
theorem backupFold_preserves_lookup (l : List String) :
    ∀ (m : List (String × String)) (k : String), (dlookup m k).isSome →
    dlookup (backupFold m l) k = dlookup m k := by
  induction l with
  | nil => intro m k _; rfl
  | cons a t ih =>
    intro m k h
    rw [backupFold_cons]
    split
    · split
      · rename_i hnone
        have hk : k ≠ pyLowerS (⟨pyStrip (pyReplaceL "_".data " ".data
            (pyReplaceL "xits_acct_".data [] a.data))⟩ : String) := by
          intro he
          rw [he, hnone] at h
          simp at h
        rw [ih _ k (dlookup_dinsert_isSome _ _ _ k h),
          dlookup_dinsert_ne _ _ _ k hk]
      · exact ih _ k h
    · exact ih _ k h

/-- C4, confirmed.  The constructed directory contains each canonical name
at most once keyed case-insensitively (pairwise-distinct lower-casings);
every hardcoded name is present with exactly the hardcoded casing (the
hardcoded list always wins); and a case-insensitive name served by the
pipeline and not hardcoded appears with a pipeline casing, never a backup
one (pipeline beats backup). -/
theorem c4_directory_merge (pipeline backup : List String) :
    List.Pairwise (fun a b => pyLowerS a ≠ pyLowerS b)
      (fetch_known_accounts pipeline backup) ∧
    (∀ n ∈ fallbackAccounts, n ∈ fetch_known_accounts pipeline backup) ∧
    (∀ n ∈ pipeline, n ≠ "" → pyLowerS n ∉ fallbackAccounts.map pyLowerS →
      ∃ v ∈ pipeline, v ≠ "" ∧ pyLowerS v = pyLowerS n ∧
        v ∈ fetch_known_accounts pipeline backup) := by
  refine ⟨fetch_known_accounts_pairwise pipeline backup,
    fun n hn => fallback_mem_fetch pipeline backup n hn, ?_⟩
  intro n hn hne hnf
  have h1 : (dlookup (pipelineFold [] pipeline) (pyLowerS n)).isSome :=
    pipeFold_isSome_of_mem pipeline [] n hn hne
  have h2 : dlookup (backupFold (pipelineFold [] pipeline) backup) (pyLowerS n) =
      dlookup (pipelineFold [] pipeline) (pyLowerS n) :=
    backupFold_preserves_lookup backup _ (pyLowerS n) h1
  obtain ⟨v, hv⟩ := Option.isSome_iff_exists.mp h1
  have hprov := pipeFold_provenance pipeline [] (pyLowerS n) v hv
  rcases hprov with ⟨hvp, hvne, hvk⟩ | habs
  · have hfb : ∀ x ∈ fallbackAccounts, pyLowerS x ≠ pyLowerS n := by
      intro x hx he
      exact hnf (he ▸ List.mem_map_of_mem pyLowerS hx)
    have h3 : dlookup (accountsMap pipeline backup) (pyLowerS n) = some v := by
      rw [accountsMap, fallbackFold]
      rw [lowerFold_lookup_of_ne fallbackAccounts _ (pyLowerS n) hfb, h2, hv]
    exact ⟨v, hvp, hvne, hvk, mem_dvalues_of_dlookup _ _ _ h3⟩
  · simp [dlookup] at habs

/-- C4 witness: the merge invariants at one concrete directory (a pipeline
casing that collides case-insensitively with a backup-derived name and is
not hardcoded). -/
theorem c4_directory_merge_witness :
    ∃ v ∈ (["ACME corp"] : List String), v ≠ "" ∧
      pyLowerS v = pyLowerS "ACME corp" ∧
      v ∈ fetch_known_accounts ["ACME corp"] ["xits_acct_acme_corp"] :=
  (c4_directory_merge ["ACME corp"] ["xits_acct_acme_corp"]).2.2
    "ACME corp" (by decide) (by decide) (by decide)

/-! ## C5: the activity classifier -/

/-- C5, confirmed.  `detect_activity_type` computes exactly the
specification's contract: the category with the highest pattern-match count
against the lowercased text wins, ties go to the first-declared category
(call, email, meeting, note), and an all-zero score yields `note`. -/
theorem c5_classifier (text : String) :
    detect_activity_type text = classifySpecModel text := by
  have e0 : categoryScore text "call" = patScore (pyLower text.data) callPatterns := rfl
  have e1 : categoryScore text "email" = patScore (pyLower text.data) emailPatterns := rfl
  have e2 : categoryScore text "meeting" = patScore (pyLower text.data) meetingPatterns := rfl
  have e3 : categoryScore text "note" = patScore (pyLower text.data) notePatterns := rfl
  simp only [detect_activity_type, classifySpecModel, ACTIVITY_PATTERNS,
    List.foldl_cons, List.foldl_nil, e0, e1, e2, e3]
  generalize patScore (pyLower text.data) callPatterns = a
  generalize patScore (pyLower text.data) emailPatterns = b
  generalize patScore (pyLower text.data) meetingPatterns = c
  generalize patScore (pyLower text.data) notePatterns = d
  split_ifs <;> first | rfl | (dsimp only at *; omega)

/-- C5 witness: the classifier equality at the spec's no-hit example. -/
theorem c5_classifier_witness :
    detect_activity_type "asdf qwerty" = classifySpecModel "asdf qwerty" :=
  c5_classifier "asdf qwerty"

/-! ## C6: contact-name extraction -/

/-- C6, confirmed.  After removing the account name, the extractor is
governed entirely by the first regex match of the cue-plus-name pattern: no
match yields the empty string; the first match is returned exactly when the
candidate's first word is outside the stop list and it has at least two
words, and in every other case (including a first match failing the checks)
the result is the empty string. -/
theorem c6_contact_extraction (text account : String) :
    (reSearch contactRx
        (if account ≠ "" then pyReplaceL account.data [] text.data else text.data) = none →
      extract_contact_name text account = "") ∧
    (∀ m, reSearch contactRx
        (if account ≠ "" then pyReplaceL account.data [] text.data else text.data) = some m →
      ((((⟨(pySplit (pyStrip (m.cap.getD []))).headD []⟩ : String) ∉ skip_words ∧
          2 ≤ (pySplit (pyStrip (m.cap.getD []))).length) →
        extract_contact_name text account = (⟨pyStrip (m.cap.getD [])⟩ : String)) ∧
      (¬(((⟨(pySplit (pyStrip (m.cap.getD []))).headD []⟩ : String) ∉ skip_words ∧
          2 ≤ (pySplit (pyStrip (m.cap.getD []))).length)) →
        extract_contact_name text account = ""))) := by
  have key : extract_contact_name text account =
      (match reSearch contactRx
          (if account ≠ "" then pyReplaceL account.data [] text.data else text.data) with
      | some m =>
        if (⟨(pySplit (pyStrip (m.cap.getD []))).headD []⟩ : String) ∉ skip_words ∧
            2 ≤ (pySplit (pyStrip (m.cap.getD []))).length then
          (⟨pyStrip (m.cap.getD [])⟩ : String)
        else ""
      | none => "") := rfl
  refine ⟨?_, ?_⟩
  · intro h
    rw [key, h]
  · intro m hm
    constructor
    · intro hc
      rw [key, hm]
      exact if_pos hc
    · intro hc
      rw [key, hm]
      exact if_neg hc

/-- C6 witness: the extractor at the specification's worked example. -/
theorem c6_contact_extraction_witness :
    extract_contact_name "met with John Smith at SaskTel" "SaskTel" = "John Smith" :=
  ((c6_contact_extraction "met with John Smith at SaskTel" "SaskTel").2
    ⟨"with John Smith".data, some ("John Smith".data), " at ".data⟩ (by decide)).1
    (by decide)

/-! ## C7 and C10: the orchestrator's post gating and optional fields -/

/-- C7, confirmed.  When the resolver returns the empty string the record is
returned immediately with `error = "account_not_matched"` and no post is
attempted; when it returns an account, a post is attempted, `posted` records
whether the (modelled) call reported success, and the record is returned
with the resolved account regardless of the post outcome. -/
theorem c7_process_post_gating (text : String) (pipeline backup : List String)
    (proxyOk : Bool) :
    (match_account text (fetch_known_accounts pipeline backup) = "" →
      (process_transcription text pipeline backup proxyOk).2 = false ∧
      (process_transcription text pipeline backup proxyOk).1.error =
        some "account_not_matched" ∧
      (process_transcription text pipeline backup proxyOk).1.posted = none) ∧
    (match_account text (fetch_known_accounts pipeline backup) ≠ "" →
      (process_transcription text pipeline backup proxyOk).2 = true ∧
      (process_transcription text pipeline backup proxyOk).1.posted = some proxyOk ∧
      (process_transcription text pipeline backup proxyOk).1.error = none ∧
      (process_transcription text pipeline backup proxyOk).1.account =
        match_account text (fetch_known_accounts pipeline backup)) := by
  constructor
  · intro h
    simp only [process_transcription, post_to_calproxy]
    rw [if_pos h]
    exact ⟨rfl, rfl, rfl⟩
  · intro h
    simp only [process_transcription, post_to_calproxy]
    rw [if_neg h]
    exact ⟨rfl, rfl, rfl, by with_reducible rfl⟩

/-- C7 witness: both branches of the post-gating theorem at concrete inputs
("zzzz" resolves to no account even against the full hardcoded directory;
"zzzz SaskTel" resolves to SaskTel by exact substring). -/
theorem c7_process_post_gating_witness :
    ((process_transcription "zzzz" [] [] true).2 = false ∧
      (process_transcription "zzzz" [] [] true).1.error = some "account_not_matched" ∧
      (process_transcription "zzzz" [] [] true).1.posted = none) ∧
    ((process_transcription "zzzz SaskTel" [] [] false).2 = true ∧
      (process_transcription "zzzz SaskTel" [] [] false).1.posted = some false ∧
      (process_transcription "zzzz SaskTel" [] [] false).1.error = none ∧
      (process_transcription "zzzz SaskTel" [] [] false).1.account =
        match_account "zzzz SaskTel" (fetch_known_accounts [] [])) :=
  ⟨(c7_process_post_gating "zzzz" [] [] true).1
      (by set_option maxRecDepth 8000 in set_option maxHeartbeats 4000000 in decide),
   (c7_process_post_gating "zzzz SaskTel" [] [] false).2
      (by set_option maxRecDepth 8000 in set_option maxHeartbeats 4000000 in decide)⟩

/-- C10, confirmed.  The `posted` and `confirmation` fields are carried by
the returned record exactly when an account was matched and a post was
attempted; on the unmatched path both are absent (not `posted = false`). -/
theorem c10_optional_fields (text : String) (pipeline backup : List String)
    (proxyOk : Bool) :
    ((process_transcription text pipeline backup proxyOk).1.posted.isSome = true ↔
      ((process_transcription text pipeline backup proxyOk).1.matched = true ∧
       (process_transcription text pipeline backup proxyOk).2 = true)) ∧
    ((process_transcription text pipeline backup proxyOk).1.confirmation.isSome = true ↔
      ((process_transcription text pipeline backup proxyOk).1.matched = true ∧
       (process_transcription text pipeline backup proxyOk).2 = true)) := by
  by_cases h : match_account text (fetch_known_accounts pipeline backup) = ""
  · simp only [process_transcription, post_to_calproxy]
    rw [if_pos h]
    simp [h]
  · simp only [process_transcription, post_to_calproxy]
    rw [if_neg h]
    simp [h]

/-- C10 witness: the optional-field equivalences at the concrete unmatched
and matched inputs. -/
theorem c10_optional_fields_witness :
    (((process_transcription "zzzz" [] [] true).1.posted.isSome = true ↔
      ((process_transcription "zzzz" [] [] true).1.matched = true ∧
       (process_transcription "zzzz" [] [] true).2 = true))) ∧
    (((process_transcription "zzzz SaskTel" [] [] true).1.confirmation.isSome = true ↔
      ((process_transcription "zzzz SaskTel" [] [] true).1.matched = true ∧
       (process_transcription "zzzz SaskTel" [] [] true).2 = true))) :=
  ⟨(c10_optional_fields "zzzz" [] [] true).1,
   (c10_optional_fields "zzzz SaskTel" [] [] true).2⟩

/-! ## C8 and C9: the summary builder -/

/-- A `^`-anchored pattern never matches after the start of the string. -/
theorem searchFrom_anchored_none (r : Rx) (c : Char) (s : List Char) :
    searchFrom (Rx.seq Rx.bos r) (some c) s = none := by
  induction s generalizing c with
  | nil => simp [searchFrom, runRx]
  | cons d ds ih => simp [searchFrom, runRx, ih]

/-- Substituting a `^`-anchored pattern in mid-string position is the
identity. -/
theorem reSubFuel_anchored_some (r : Rx) (repl : List Char) (fuel : Nat)
    (c : Char) (s : List Char) :
    reSubFuel (Rx.seq Rx.bos r) repl fuel (some c) s = s := by
  cases fuel with
  | zero => rfl
  | succ n => simp [reSubFuel, searchFrom_anchored_none]

/-- The first preamble pattern is anchored; once past the start it never
fires. -/
theorem reSubFuel_p1_some (repl : List Char) (fuel : Nat) (c : Char) (s : List Char) :
    reSubFuel preambleRx1 repl fuel (some c) s = s :=
  reSubFuel_anchored_some _ repl fuel c s

/-- The second preamble pattern is anchored; once past the start it never
fires. -/
theorem reSubFuel_p2_some (repl : List Char) (fuel : Nat) (c : Char) (s : List Char) :
    reSubFuel preambleRx2 repl fuel (some c) s = s :=
  reSubFuel_anchored_some _ repl fuel c s

/-- A list with no leading and no trailing whitespace is fixed by `strip`. -/
theorem pyStrip_of_trimmed (l : List Char)
    (h1 : l.dropWhile pyIsSpace = l)
    (h2 : l.reverse.dropWhile pyIsSpace = l.reverse) :
    pyStrip l = l := by
  rw [pyStrip, h1, h2, List.reverse_reverse]

/-- `strip` fixes an append whose prefix starts with a non-space character
and whose nonempty suffix carries no trailing whitespace. -/
theorem pyStrip_append_trimmed (p l : List Char)
    (hp : p.dropWhile pyIsSpace = p) (hpne : p ≠ [])
    (hl : l.reverse.dropWhile pyIsSpace = l.reverse) (hlne : l ≠ []) :
    pyStrip (p ++ l) = p ++ l := by
  have hpe : p.isEmpty = false := by
    cases p
    · simp at hpne
    · rfl
  have hle : l.reverse.isEmpty = false := by
    cases hrev : l.reverse with
    | nil => exact absurd (List.reverse_eq_nil_iff.mp hrev) hlne
    | cons a b => rfl
  rw [pyStrip, List.dropWhile_append, hp, hpe]
  simp only [Bool.false_eq_true, if_false]
  rw [List.reverse_append, List.dropWhile_append, hl, hle]
  simp only [Bool.false_eq_true, if_false]
  rw [← List.reverse_append, List.reverse_reverse]

/-- C8, counterexample.  The claim says only the first matching prefix is
stripped, so "I called John about stuff" should lose only the filler "I "
and yield "Called John about stuff".  The source applies both preamble
substitutions in sequence, so the activity verb "called " is removed as
well. -/
theorem c8_counterexample :
    build_summary "I called John about stuff" "" "" "call" = "John about stuff" ∧
    ("John about stuff" : String) ≠ "Called John about stuff" := by
  refine ⟨by decide, by decide⟩

/-- C8, amended.  `build_summary` applies the two preamble patterns in
sequence (filler openers first, then activity-verb openers), each removing
at most one anchored prefix: a text of the form "I called " followed by a
remainder that starts with a non-space character, has no trailing
whitespace, and keeps at least 10 characters loses both openers, leaving
the capitalized remainder. -/
theorem c8_strip_both_preambles (account contact ty : String) (h0 : Char) (t : List Char)
    (hws : pyIsSpace h0 = false)
    (htrail : (h0 :: t).reverse.dropWhile pyIsSpace = (h0 :: t).reverse)
    (hlen : 10 ≤ (h0 :: t).length) :
    build_summary (⟨'I' :: ' ' :: 'c' :: 'a' :: 'l' :: 'l' :: 'e' :: 'd' :: ' ' :: h0 :: t⟩ : String)
      account contact ty = (⟨upperChar h0 :: t⟩ : String) := by
  have hmk : ∀ l : List Char, (String.mk l).data = l := fun _ => rfl
  have hstrip0 : pyStrip ('I' :: ' ' :: 'c' :: 'a' :: 'l' :: 'l' :: 'e' :: 'd' :: ' ' :: h0 :: t) =
      'I' :: ' ' :: 'c' :: 'a' :: 'l' :: 'l' :: 'e' :: 'd' :: ' ' :: h0 :: t := by
    have := pyStrip_append_trimmed ('I' :: ' ' :: 'c' :: 'a' :: 'l' :: 'l' :: 'e' :: 'd' :: ' ' :: [])
      (h0 :: t) (by decide) (by decide) htrail (by simp)
    simpa using this
  have hsearch1 : searchFrom preambleRx1 none ('I' :: ' ' :: 'c' :: 'a' :: 'l' :: 'l' :: 'e' :: 'd' :: ' ' :: h0 :: t) =
      some ([], ⟨['I', ' '], none, 'c' :: 'a' :: 'l' :: 'l' :: 'e' :: 'd' :: ' ' :: h0 :: t⟩) := rfl
  have hsub1 : ∀ N : Nat, reSubFuel preambleRx1 [] (N+1) none
      ('I' :: ' ' :: 'c' :: 'a' :: 'l' :: 'l' :: 'e' :: 'd' :: ' ' :: h0 :: t) = 'c' :: 'a' :: 'l' :: 'l' :: 'e' :: 'd' :: ' ' :: h0 :: t := by
    intro N
    simp only [reSubFuel, hsearch1]
    simp [reSubFuel_p1_some, nextPrev]
  have hstrip1 : pyStrip ('c' :: 'a' :: 'l' :: 'l' :: 'e' :: 'd' :: ' ' :: h0 :: t) =
      'c' :: 'a' :: 'l' :: 'l' :: 'e' :: 'd' :: ' ' :: h0 :: t := by
    have := pyStrip_append_trimmed ('c' :: 'a' :: 'l' :: 'l' :: 'e' :: 'd' :: ' ' :: [])
      (h0 :: t) (by decide) (by decide) htrail (by simp)
    simpa using this
  have hsearch2 : searchFrom preambleRx2 none ('c' :: 'a' :: 'l' :: 'l' :: 'e' :: 'd' :: ' ' :: h0 :: t) =
      some ([], ⟨'c' :: 'a' :: 'l' :: 'l' :: 'e' :: 'd' :: ' ' :: [], none, h0 :: t⟩) := by
    simp [searchFrom, runRx, hws,
      show pyIsSpace ' ' = true by decide,
      show lowerChar 'c' ≠ lowerChar 'e' by decide,
      show lowerChar 'c' ≠ lowerChar 'm' by decide,
      show lowerChar 'c' ≠ lowerChar 'h' by decide,
      show lowerChar 'c' ≠ lowerChar 's' by decide,
      show lowerChar 'c' ≠ lowerChar 't' by decide,
      show List.range 1 = [0] by rfl, List.reverse_singleton, List.take_zero, List.drop_zero,
      Function.comp_apply]
  have hsub2 : ∀ N : Nat, reSubFuel preambleRx2 [] (N+1) none
      ('c' :: 'a' :: 'l' :: 'l' :: 'e' :: 'd' :: ' ' :: h0 :: t) = h0 :: t := by
    intro N
    simp only [reSubFuel, hsearch2]
    simp [reSubFuel_p2_some, nextPrev]
  have hstrip2 : pyStrip (h0 :: t) = h0 :: t :=
    pyStrip_of_trimmed _ (by rw [List.dropWhile_cons]; simp [hws]) htrail
  simp only [build_summary, stripPreambles, pyReSub, pyStripS, hmk,
    show ("" : String).data = [] from rfl, hstrip0]
  rw [hsub1, hstrip1, hsub2, hstrip2]
  rw [if_neg (by simpa using Nat.not_lt.mpr hlen)]
  rfl

/-- C8 witness: both openers removed at a concrete remainder. -/
theorem c8_strip_both_preambles_witness :
    build_summary (⟨'I' :: ' ' :: 'c' :: 'a' :: 'l' :: 'l' :: 'e' :: 'd' :: ' ' :: 'J' :: "ohn about renewals".data⟩ : String)
      "" "" "call" = (⟨upperChar 'J' :: "ohn about renewals".data⟩ : String) :=
  c8_strip_both_preambles "" "" "call" 'J' "ohn about renewals".data
    (by decide) (by decide) (by decide)

/-- C9, counterexample.  The claim says a too-short stripped remainder makes
the builder fall back to the original untouched input text.  The source
falls back to `text.strip()`: for the input " hi" (leading space, stripped
remainder "hi" of length < 10) the result is "Hi", not the untouched " hi"
(nor its first-character-uppercased form " hi", since its first character
is a space). -/
theorem c9_counterexample :
    build_summary " hi" "" "" "note" = "Hi" ∧
    ("Hi" : String) ≠ " hi" ∧
    ("Hi" : String) ≠ capFirstPy " hi" := by
  refine ⟨by decide, by decide, by decide⟩

/-- C9, amended.  When the preamble-stripped remainder is shorter than 10
characters, `build_summary` falls back to the whitespace-stripped original
text (not the untouched text) and upper-cases its first character. -/
theorem c9_short_fallback (text account contact ty : String)
    (h : (stripPreambles text).data.length < 10) :
    build_summary text account contact ty = capFirstPy (pyStripS text) := by
  simp only [build_summary]
  rw [if_pos h]

/-- C9 witness: the short-remainder fallback at the counterexample input. -/
theorem c9_short_fallback_witness :
    build_summary " hi" "x" "y" "note" = capFirstPy (pyStripS " hi") :=
  c9_short_fallback " hi" "x" "y" "note" (by decide)
